import Mathlib

/-!
Verification development for the `resector` repository
(`src/resector/random_resection.py`), a data-augmentation transform that
carves synthetic resection cavities into 3-D brain MRI volumes.

The Python code is shallowly embedded:
  * 3-D / 4-D numpy arrays become `Arr3` / `Arr4` (a shape together with a
    total voxel function into `ℚ`);
  * SimpleITK images become `SitkImage`;
  * the sample dictionary becomes an association list `Sample` with
    Python-dict semantics (`getVal` / `setVal` / `delVal`, where deleting a
    missing key is a `KeyError`);
  * torch's random primitives are driven by an explicit stream
    `rng : ℕ → ℚ` of draws from the unit interval `[0,1)`, consumed in the
    order the Python code consumes randomness (`rng 0` the hemisphere coin,
    `rng 1` the volume draw, `rng 2..4` the sigmas, `rng 5` the radii
    ratio, `rng 6..8` the angles); `uniform_(lo, hi)` is the inverse-CDF
    map `u ↦ lo + u * (hi - lo)` and `torch.randint(n)` is `⌊u * n⌋`;
  * fallible Python code returns `Except String _`; `RandomResection.__call__`
    returns `Except (String × Sample) Sample`, the error carrying the state
    of the caller's (in-place mutated) sample dictionary at the moment the
    exception propagates;
  * `_resect` lives in `src/resector/resector.py`, which is not part of the
    snapshot; it is treated as an arbitrary parameter of type `ResectFn`.
-/

/-- A 3-D numpy array: a shape `(n1, n2, n3)` and a total voxel function. -/
structure Arr3 where
  n1 : ℕ
  n2 : ℕ
  n3 : ℕ
  data : ℕ → ℕ → ℕ → ℚ

/-- A 4-D numpy array (channel-first): shape `(n0, n1, n2, n3)` and voxels. -/
structure Arr4 where
  n0 : ℕ
  n1 : ℕ
  n2 : ℕ
  n3 : ℕ
  data : ℕ → ℕ → ℕ → ℕ → ℚ

/-- A 4×4 affine matrix attached to a volume (`sample['affine']`). -/
def Affine : Type := Fin 4 → Fin 4 → ℚ

/-- A SimpleITK image: size `(s1, s2, s3)` and a pixel function. -/
structure SitkImage where
  s1 : ℕ
  s2 : ℕ
  s3 : ℕ
  pixel : ℕ → ℕ → ℕ → ℚ

/-- A physical point, used for the realized resection center. -/
def Point3 : Type := ℚ × ℚ × ℚ

/-- `class Hemisphere(enum.Enum)` with members `LEFT = 'left'`,
`RIGHT = 'right'` (random_resection.py lines 10-12). -/
inductive Hemisphere where
  | LEFT
  | RIGHT

/-- The `.value` of a `Hemisphere` enum member. -/
def Hemisphere.value : Hemisphere → String
  | .LEFT => "left"
  | .RIGHT => "right"

/-- Values stored in the `parameters` dictionary built by `get_params`. -/
inductive PVal where
  | str (s : String)
  | num (q : ℚ)
  | list (l : List ℚ)
  | point (p : Point3)

/-- The `parameters` dictionary returned by `get_params`: an ordered
association list, as Python dicts preserve insertion order. -/
def ParamsDict : Type := List (String × PVal)

/-- Values stored in the sample dictionary handled by `__call__`. -/
inductive Val where
  | a3 (a : Arr3)
  | a4 (a : Arr4)
  | aff (A : Affine)
  | params (p : ParamsDict)

/-- The sample dictionary: an ordered association list of named volumes and
metadata, modelling a Python dict (keys unique in any dict-built sample). -/
def Sample : Type := List (String × Val)

/-- Python `d[k]` as a total lookup: first entry with the given key. -/
def getVal : Sample → String → Option Val
  | [], _ => none
  | p :: rest, k => if p.1 = k then some p.2 else getVal rest k

/-- Python `d[k] = v`: replace the entry in place if the key exists
(preserving its position, as dicts do), else append a new entry. -/
def setVal : Sample → String → Val → Sample
  | [], k, v => [(k, v)]
  | p :: rest, k, v => if p.1 = k then (k, v) :: rest else p :: setVal rest k v

/-- Python `del d[k]`: remove the entry; `none` models the `KeyError`
raised when the key is absent. -/
def delVal : Sample → String → Option Sample
  | [], _ => none
  | p :: rest, k => if p.1 = k then some rest else (delVal rest k).map (p :: ·)

/-- Lookup in a `ParamsDict` (Python `parameters[k]`). -/
def lookupP : ParamsDict → String → Option PVal
  | [], _ => none
  | p :: rest, k => if p.1 = k then some p.2 else lookupP rest k

/-- Python `parameters[k] = v` on the parameters dictionary. -/
def psetVal : ParamsDict → String → PVal → ParamsDict
  | [], k, v => [(k, v)]
  | p :: rest, k, v => if p.1 = k then (k, v) :: rest else p :: psetVal rest k v

/-- `torch.FloatTensor(_).uniform_(lo, hi)` driven by one unit draw `u`:
the inverse-CDF map of the uniform distribution on `[lo, hi)`. -/
def uniform (lo hi u : ℚ) : ℚ := lo + u * (hi - lo)

/-- `torch.randint(n, (1,))` driven by one unit draw `u`: the inverse-CDF
map of the uniform distribution on `{0, …, n-1}`. -/
def randint (n : ℕ) (u : ℚ) : ℕ := (⌊u * n⌋).toNat

/-- The rng stream supplies draws from the unit interval `[0, 1)`. -/
def rngValid (rng : ℕ → ℚ) : Prop := ∀ n, 0 ≤ rng n ∧ rng n < 1

/-- `RandomResection.flip_coin` (lines 144-146): `torch.rand(1) >= 0.5`. -/
def flip_coin (u : ℚ) : Bool := u ≥ 1/2

/-- Real-valued counterpart of the `flip_coin` comparison
`torch.rand(1) >= 0.5`, used to state the probability of each outcome
under the uniform measure on the real unit interval. -/
def flip_coinR (u : ℝ) : Prop := 1/2 ≤ u

/-- The target-volume selection of `get_params` (lines 119-124): if
`volumes` is `None`, draw uniformly from `volumes_range` (a `TypeError`
if that is also `None`); else draw an index uniformly over the catalog
length (`torch.randint` fails on an empty catalog) and pick that entry. -/
def sample_volume (volumes : Option (List ℚ)) (volumes_range : Option (ℚ × ℚ))
    (u : ℚ) : Except String ℚ :=
  match volumes with
  | none =>
    match volumes_range with
    | none => .error "TypeError: volumes_range is None"
    | some r => .ok (uniform r.1 r.2 u)
  | some vs =>
    if vs.length = 0 then .error "RuntimeError: randint on empty catalog"
    else .ok (vs.getD (randint vs.length u) 0)

/-- `RandomResection.get_params` (lines 108-142): sample the hemisphere
(coin at `rng 0`), the target volume (`rng 1`), three sigmas
(`rng 2..4`), the radii ratio (`rng 5`) and three angles (`rng 6..8`),
and return the parameters dictionary in insertion order
hemisphere, volume, sigmas, radii_ratio, angles. -/
def get_params (volumes : Option (List ℚ)) (volumes_range : Option (ℚ × ℚ))
    (sigmas_range radii_ratio_range angles_range : ℚ × ℚ) (rng : ℕ → ℚ) :
    Except String ParamsDict :=
  match sample_volume volumes volumes_range (rng 1) with
  | .error e => .error e
  | .ok volume =>
    .ok [("hemisphere",
           PVal.str (if flip_coin (rng 0) then Hemisphere.LEFT
                     else Hemisphere.RIGHT).value),
         ("volume", PVal.num volume),
         ("sigmas",
           PVal.list [uniform sigmas_range.1 sigmas_range.2 (rng 2),
                      uniform sigmas_range.1 sigmas_range.2 (rng 3),
                      uniform sigmas_range.1 sigmas_range.2 (rng 4)]),
         ("radii_ratio",
           PVal.num (uniform radii_ratio_range.1 radii_ratio_range.2 (rng 5))),
         ("angles",
           PVal.list [uniform angles_range.1 angles_range.2 (rng 6),
                      uniform angles_range.1 angles_range.2 (rng 7),
                      uniform angles_range.1 angles_range.2 (rng 8)])]

/-- The configuration state stored on a successfully constructed
`RandomResection` instance (lines 41-47). -/
structure Config where
  volumes_range : Option (ℚ × ℚ)
  volumes : Option (List ℚ)
  sigmas_range : ℚ × ℚ
  radii_ratio_range : ℚ × ℚ
  angles_range : ℚ × ℚ
  delete_keys : Bool
  verbose : Bool

/-- `RandomResection.__init__` (lines 16-47): raise `ValueError` when
`volumes` and `volumes_range` are both `None` or both supplied, else
store the configuration. The constructor consumes no randomness (it takes
no rng stream) and in the error case produces no configuration state. -/
def RandomResection_init (volumes_range : Option (ℚ × ℚ))
    (volumes : Option (List ℚ))
    (sigmas_range radii_ratio_range angles_range : ℚ × ℚ)
    (delete_keys verbose : Bool) : Except String Config :=
  if volumes.isNone && volumes_range.isNone
      || !volumes.isNone && !volumes_range.isNone then
    .error "ValueError: Please enter a value for volumes or volumes_range"
  else
    .ok ⟨volumes_range, volumes, sigmas_range, radii_ratio_range, angles_range,
         delete_keys, verbose⟩

/-- Modelled from the spec: `resector.io.nib_to_sitk` (file
`src/resector/io.py` is not in the repository snapshot). Per the spec the
boundary conversion only adapts the axis convention between the two
volumetric-array representations on the same grid: the nib array axes
`(x, y, z)` become the image size axes directly. -/
def nib_to_sitk (a : Arr3) (_affine : Affine) : SitkImage :=
  ⟨a.n1, a.n2, a.n3, a.data⟩

/-- `sitk.GetArrayFromImage`: an image of size `(s1, s2, s3)` yields an
array of shape `(s3, s2, s1)` with reversed index order. -/
def sitk_GetArrayFromImage (image : SitkImage) : Arr3 :=
  ⟨image.s3, image.s2, image.s1, fun i j k => image.pixel k j i⟩

/-- `RandomResection.sitk_to_array` (lines 148-151):
`GetArrayFromImage` followed by `transpose(2, 1, 0)`. -/
def sitk_to_array (image : SitkImage) : Arr3 :=
  ⟨(sitk_GetArrayFromImage image).n3,
   (sitk_GetArrayFromImage image).n2,
   (sitk_GetArrayFromImage image).n1,
   fun i j k => (sitk_GetArrayFromImage image).data k j i⟩

/-- `RandomResection.add_channels_axis` (lines 153-155):
`array[np.newaxis, ...]`, a leading channel axis of size 1. -/
def add_channels_axis (array : Arr3) : Arr4 :=
  ⟨1, array.n1, array.n2, array.n3,
   fun c i j k => if c = 0 then array.data i j k else 0⟩

/-- `RandomResection.add_background_channel` (lines 157-160):
`background = 1 - foreground`; `np.stack((background, foreground))`,
so channel 0 is the background and channel 1 the foreground. -/
def add_background_channel (foreground : Arr3) : Arr4 :=
  ⟨2, foreground.n1, foreground.n2, foreground.n3,
   fun c i j k =>
     if c = 0 then 1 - foreground.data i j k
     else if c = 1 then foreground.data i j k
     else 0⟩

/-- `sample['image'][0]`: the single channel of the channel-first image. -/
def channel0 (A : Arr4) : Arr3 :=
  ⟨A.n1, A.n2, A.n3, fun i j k => A.data 0 i j k⟩

/-- The type of `_resect` (imported from `src/resector/resector.py`, not
part of the snapshot): brain, gray-matter mask, resectable-hemisphere
mask, noise image, target volume, sigmas, radii ratio, angles, giving the
resected brain, the resection mask and the realized center. The claims
below quantify over this function. -/
def ResectFn : Type :=
  SitkImage → SitkImage → SitkImage → SitkImage →
    ℚ → List ℚ → ℚ → List ℚ → Except String (SitkImage × SitkImage × Point3)

/-- The read/compute phase of `RandomResection.__call__` (lines 49-89):
everything up to but excluding the sample-dictionary mutations. All
fallible steps of a call happen here: parameter sampling, the fixed-key
reads of the sample, the `_resect` invocation, and building the
channel-first outputs. Returns the parameters dictionary with the
realized `resection_center` added (line 83), the resected image with a
channel axis (line 86), and the 2-channel label (line 87). -/
def prepare (cfg : Config) (resect : ResectFn) (rng : ℕ → ℚ)
    (sample : Sample) : Except String (ParamsDict × Arr4 × Arr4) :=
  match get_params cfg.volumes cfg.volumes_range cfg.sigmas_range
      cfg.radii_ratio_range cfg.angles_range rng with
  | .error e => .error e
  | .ok resection_params =>
    match getVal sample "image" with
    | some (.a4 imageA) =>
      match getVal sample "affine" with
      | some (.aff affine) =>
        match lookupP resection_params "hemisphere" with
        | some (.str hemisphere) =>
          match getVal sample ("gray_matter_" ++ hemisphere) with
          | some (.a3 gmA) =>
            match getVal sample ("resectable_" ++ hemisphere) with
            | some (.a3 resA) =>
              match getVal sample "noise" with
              | some (.a3 noiseA) =>
                match lookupP resection_params "volume" with
                | some (.num volume) =>
                  match lookupP resection_params "sigmas" with
                  | some (.list sigmas) =>
                    match lookupP resection_params "radii_ratio" with
                    | some (.num radii_ratio) =>
                      match lookupP resection_params "angles" with
                      | some (.list angles) =>
                        match resect (nib_to_sitk (channel0 imageA) affine)
                            (nib_to_sitk gmA affine) (nib_to_sitk resA affine)
                            (nib_to_sitk noiseA affine)
                            volume sigmas radii_ratio angles with
                        | .error e => .error e
                        | .ok (resected_brain, resection_mask, resection_center) =>
                          .ok (psetVal resection_params "resection_center"
                                 (PVal.point resection_center),
                               add_channels_axis (sitk_to_array resected_brain),
                               add_background_channel (sitk_to_array resection_mask))
                      | _ => .error "KeyError: angles"
                    | _ => .error "KeyError: radii_ratio"
                  | _ => .error "KeyError: sigmas"
                | _ => .error "KeyError: volume"
              | _ => .error "KeyError: noise"
            | _ => .error "KeyError: resectable"
          | _ => .error "KeyError: gray_matter"
        | _ => .error "KeyError: hemisphere"
      | _ => .error "KeyError: affine"
    | _ => .error "KeyError: image"

/-- The deletion block of `__call__` (lines 96-101): five sequential
`del sample[...]` statements; a missing key raises `KeyError`, leaving
the deletions already performed in place. -/
def deleteFive (s : Sample) : Except (String × Sample) Sample :=
  match delVal s "gray_matter_left" with
  | none => .error ("KeyError: gray_matter_left", s)
  | some s1 =>
    match delVal s1 "gray_matter_right" with
    | none => .error ("KeyError: gray_matter_right", s1)
    | some s2 =>
      match delVal s2 "resectable_left" with
      | none => .error ("KeyError: resectable_left", s2)
      | some s3 =>
        match delVal s3 "resectable_right" with
        | none => .error ("KeyError: resectable_right", s3)
        | some s4 =>
          match delVal s4 "noise" with
          | none => .error ("KeyError: noise", s4)
          | some s5 => .ok s5

/-- `RandomResection.__call__` (lines 49-106): run the read/compute phase
(any failure there propagates with the sample untouched), then write
`random_resection`, `image` and `label` into the sample (lines 92-94),
then, when `delete_keys` is set, delete the five consumed keys
(lines 96-101). An error carries the caller-visible state of the
in-place-mutated sample at the moment the exception propagates. -/
def call (cfg : Config) (resect : ResectFn) (rng : ℕ → ℚ)
    (sample : Sample) : Except (String × Sample) Sample :=
  match prepare cfg resect rng sample with
  | .error e => .error (e, sample)
  | .ok (params2, image_resected, resection_label) =>
    if cfg.delete_keys then
      deleteFive
        (setVal (setVal (setVal sample "random_resection" (Val.params params2))
            "image" (Val.a4 image_resected)) "label" (Val.a4 resection_label))
    else
      .ok (setVal (setVal (setVal sample "random_resection" (Val.params params2))
            "image" (Val.a4 image_resected)) "label" (Val.a4 resection_label))

theorem getVal_setVal_self (s : Sample) (k : String) (v : Val) :
    getVal (setVal s k v) k = some v := by
  induction s with
  | nil => simp [setVal, getVal]
  | cons p rest ih =>
    by_cases hpk : p.1 = k
    · simp [setVal, getVal, hpk]
    · simp [setVal, getVal, hpk, ih]

theorem getVal_setVal_ne (s : Sample) (k k' : String) (v : Val)
    (hne : k' ≠ k) : getVal (setVal s k v) k' = getVal s k' := by
  have hk : ¬ k = k' := fun h => hne h.symm
  induction s with
  | nil =>
    simp only [setVal, getVal, hk, if_false]
  | cons p rest ih =>
    by_cases hpk : p.1 = k
    · have hp : ¬ p.1 = k' := by rw [hpk]; exact hk
      simp [setVal, getVal, hpk, hk, hp]
    · simp only [setVal, hpk, if_false, getVal]
      by_cases hpk' : p.1 = k'
      · simp [hpk']
      · simp [hpk', ih]

theorem isSome_getVal_setVal (s : Sample) (k k' : String) (v : Val)
    (h : (getVal s k').isSome) : (getVal (setVal s k v) k').isSome := by
  by_cases hkk : k' = k
  · subst hkk; rw [getVal_setVal_self]; rfl
  · rw [getVal_setVal_ne s k k' v hkk]; exact h

theorem delVal_eq_none_iff (s : Sample) (k : String) :
    delVal s k = none ↔ getVal s k = none := by
  induction s with
  | nil => simp [delVal, getVal]
  | cons p rest ih =>
    by_cases hpk : p.1 = k
    · simp [delVal, getVal, hpk]
    · simp only [delVal, getVal, hpk, if_false]
      rw [Option.map_eq_none']
      exact ih

theorem delVal_isSome_of_getVal (s : Sample) (k : String)
    (h : (getVal s k).isSome) : ∃ s', delVal s k = some s' := by
  rcases hd : delVal s k with _ | s'
  · rw [delVal_eq_none_iff] at hd
    rw [hd] at h
    simp at h
  · exact ⟨s', rfl⟩

theorem getVal_delVal_ne (s s' : Sample) (k k' : String)
    (h : delVal s k = some s') (hne : k' ≠ k) :
    getVal s' k' = getVal s k' := by
  induction s generalizing s' with
  | nil => simp [delVal] at h
  | cons p rest ih =>
    by_cases hpk : p.1 = k
    · simp only [delVal, hpk, if_true, Option.some_inj] at h
      subst h
      have hp' : p.1 ≠ k' := by rw [hpk]; exact fun h => hne h.symm
      simp [getVal, hp']
    · simp only [delVal, hpk, if_false, Option.map_eq_some'] at h
      obtain ⟨t, ht, hs'⟩ := h
      subst hs'
      simp only [getVal]
      by_cases hpk' : p.1 = k'
      · simp [hpk']
      · simp [hpk', ih t ht]

theorem getVal_eq_none_of_not_mem (s : Sample) (k : String)
    (h : k ∉ s.map Prod.fst) : getVal s k = none := by
  induction s with
  | nil => rfl
  | cons p rest ih =>
    simp only [List.map_cons, List.mem_cons] at h
    push_neg at h
    have hp : ¬ p.1 = k := fun hh => h.1 hh.symm
    simp only [getVal, hp, if_false]
    exact ih h.2

theorem getVal_delVal_self (s s' : Sample) (k : String)
    (hnodup : (s.map Prod.fst).Nodup) (h : delVal s k = some s') :
    getVal s' k = none := by
  induction s generalizing s' with
  | nil => simp [delVal] at h
  | cons p rest ih =>
    simp only [List.map_cons, List.nodup_cons] at hnodup
    by_cases hpk : p.1 = k
    · simp only [delVal, hpk, if_true, Option.some_inj] at h
      subst h
      exact getVal_eq_none_of_not_mem rest k (hpk ▸ hnodup.1)
    · simp only [delVal, hpk, if_false, Option.map_eq_some'] at h
      obtain ⟨t, ht, hs'⟩ := h
      subst hs'
      simp only [getVal, hpk, if_false]
      exact ih t hnodup.2 ht

theorem mem_keys_delVal (s s' : Sample) (k k' : String)
    (h : delVal s k = some s') (hm : k' ∈ s'.map Prod.fst) :
    k' ∈ s.map Prod.fst := by
  induction s generalizing s' with
  | nil => simp [delVal] at h
  | cons p rest ih =>
    by_cases hpk : p.1 = k
    · simp only [delVal, hpk, if_true, Option.some_inj] at h
      subst h
      simp only [List.map_cons, List.mem_cons]
      exact Or.inr hm
    · simp only [delVal, hpk, if_false, Option.map_eq_some'] at h
      obtain ⟨t, ht, hs'⟩ := h
      subst hs'
      simp only [List.map_cons, List.mem_cons] at hm ⊢
      rcases hm with hm | hm
      · exact Or.inl hm
      · exact Or.inr (ih t ht hm)

theorem nodup_delVal (s s' : Sample) (k : String)
    (hnodup : (s.map Prod.fst).Nodup) (h : delVal s k = some s') :
    (s'.map Prod.fst).Nodup := by
  induction s generalizing s' with
  | nil => simp [delVal] at h
  | cons p rest ih =>
    simp only [List.map_cons, List.nodup_cons] at hnodup
    by_cases hpk : p.1 = k
    · simp only [delVal, hpk, if_true, Option.some_inj] at h
      subst h
      exact hnodup.2
    · simp only [delVal, hpk, if_false, Option.map_eq_some'] at h
      obtain ⟨t, ht, hs'⟩ := h
      subst hs'
      simp only [List.map_cons, List.nodup_cons]
      exact ⟨fun hm => hnodup.1 (mem_keys_delVal rest t k p.1 ht hm),
             ih t hnodup.2 ht⟩

theorem mem_keys_setVal (s : Sample) (k k' : String) (v : Val)
    (hm : k' ∈ (setVal s k v).map Prod.fst) :
    k' = k ∨ k' ∈ s.map Prod.fst := by
  induction s with
  | nil => simpa [setVal] using hm
  | cons p rest ih =>
    by_cases hpk : p.1 = k
    · simp only [setVal, hpk, if_true, List.map_cons, List.mem_cons] at hm
      rcases hm with hm | hm
      · exact Or.inl hm
      · exact Or.inr (by simp [hm])
    · simp only [setVal, hpk, if_false, List.map_cons, List.mem_cons] at hm
      rcases hm with hm | hm
      · exact Or.inr (by simp [hm])
      · rcases ih hm with hh | hh
        · exact Or.inl hh
        · exact Or.inr (by simp [hh])

theorem nodup_setVal (s : Sample) (k : String) (v : Val)
    (hnodup : (s.map Prod.fst).Nodup) :
    ((setVal s k v).map Prod.fst).Nodup := by
  induction s with
  | nil => simp [setVal]
  | cons p rest ih =>
    simp only [List.map_cons, List.nodup_cons] at hnodup
    by_cases hpk : p.1 = k
    · simp only [setVal, hpk, if_true, List.map_cons, List.nodup_cons]
      exact ⟨hpk ▸ hnodup.1, hnodup.2⟩
    · simp only [setVal, hpk, if_false, List.map_cons, List.nodup_cons]
      refine ⟨fun hm => ?_, ih hnodup.2⟩
      rcases mem_keys_setVal rest k p.1 v hm with hh | hh
      · exact hpk hh
      · exact hnodup.1 hh

theorem lookupP_psetVal_self (p : ParamsDict) (k : String) (v : PVal) :
    lookupP (psetVal p k v) k = some v := by
  induction p with
  | nil => simp [psetVal, lookupP]
  | cons q rest ih =>
    by_cases hqk : q.1 = k
    · simp [psetVal, lookupP, hqk]
    · simp [psetVal, lookupP, hqk, ih]

theorem lookupP_psetVal_ne (p : ParamsDict) (k k' : String) (v : PVal)
    (hne : k' ≠ k) : lookupP (psetVal p k v) k' = lookupP p k' := by
  have hk : ¬ k = k' := fun h => hne h.symm
  induction p with
  | nil =>
    simp only [psetVal, lookupP, hk, if_false]
  | cons q rest ih =>
    by_cases hqk : q.1 = k
    · have hq : ¬ q.1 = k' := by rw [hqk]; exact hk
      simp [psetVal, lookupP, hqk, hk, hq]
    · simp only [psetVal, hqk, if_false, lookupP]
      by_cases hqk' : q.1 = k'
      · simp [hqk']
      · simp [hqk', ih]

theorem deleteFive_ok_of_present (s : Sample)
    (h1 : (getVal s "gray_matter_left").isSome)
    (h2 : (getVal s "gray_matter_right").isSome)
    (h3 : (getVal s "resectable_left").isSome)
    (h4 : (getVal s "resectable_right").isSome)
    (h5 : (getVal s "noise").isSome) :
    ∃ s', deleteFive s = .ok s' := by
  obtain ⟨s1, hd1⟩ := delVal_isSome_of_getVal s "gray_matter_left" h1
  have h2' : (getVal s1 "gray_matter_right").isSome := by
    rw [getVal_delVal_ne s s1 "gray_matter_left" "gray_matter_right" hd1
      (by decide)]
    exact h2
  obtain ⟨s2, hd2⟩ := delVal_isSome_of_getVal s1 "gray_matter_right" h2'
  have h3' : (getVal s2 "resectable_left").isSome := by
    rw [getVal_delVal_ne s1 s2 "gray_matter_right" "resectable_left" hd2
      (by decide)]
    rw [getVal_delVal_ne s s1 "gray_matter_left" "resectable_left" hd1
      (by decide)]
    exact h3
  obtain ⟨s3, hd3⟩ := delVal_isSome_of_getVal s2 "resectable_left" h3'
  have h4' : (getVal s3 "resectable_right").isSome := by
    rw [getVal_delVal_ne s2 s3 "resectable_left" "resectable_right" hd3
      (by decide)]
    rw [getVal_delVal_ne s1 s2 "gray_matter_right" "resectable_right" hd2
      (by decide)]
    rw [getVal_delVal_ne s s1 "gray_matter_left" "resectable_right" hd1
      (by decide)]
    exact h4
  obtain ⟨s4, hd4⟩ := delVal_isSome_of_getVal s3 "resectable_right" h4'
  have h5' : (getVal s4 "noise").isSome := by
    rw [getVal_delVal_ne s3 s4 "resectable_right" "noise" hd4 (by decide)]
    rw [getVal_delVal_ne s2 s3 "resectable_left" "noise" hd3 (by decide)]
    rw [getVal_delVal_ne s1 s2 "gray_matter_right" "noise" hd2 (by decide)]
    rw [getVal_delVal_ne s s1 "gray_matter_left" "noise" hd1 (by decide)]
    exact h5
  obtain ⟨s5, hd5⟩ := delVal_isSome_of_getVal s4 "noise" h5'
  refine ⟨s5, ?_⟩
  simp only [deleteFive, hd1, hd2, hd3, hd4, hd5]

theorem deleteFive_ok_elim (s s' : Sample) (h : deleteFive s = .ok s') :
    ∃ s1 s2 s3 s4,
      delVal s "gray_matter_left" = some s1
      ∧ delVal s1 "gray_matter_right" = some s2
      ∧ delVal s2 "resectable_left" = some s3
      ∧ delVal s3 "resectable_right" = some s4
      ∧ delVal s4 "noise" = some s' := by
  unfold deleteFive at h
  iterate 6 (all_goals try split at h)
  all_goals try exact Except.noConfusion h
  injection h with h'
  subst h'
  exact ⟨_, _, _, _, by assumption, by assumption, by assumption,
         by assumption, by assumption⟩

theorem getVal_deleteFive_ne (s s' : Sample) (h : deleteFive s = .ok s')
    (k : String) (hk1 : k ≠ "gray_matter_left") (hk2 : k ≠ "gray_matter_right")
    (hk3 : k ≠ "resectable_left") (hk4 : k ≠ "resectable_right")
    (hk5 : k ≠ "noise") : getVal s' k = getVal s k := by
  obtain ⟨s1, s2, s3, s4, hd1, hd2, hd3, hd4, hd5⟩ := deleteFive_ok_elim s s' h
  rw [getVal_delVal_ne s4 s' "noise" k hd5 hk5,
      getVal_delVal_ne s3 s4 "resectable_right" k hd4 hk4,
      getVal_delVal_ne s2 s3 "resectable_left" k hd3 hk3,
      getVal_delVal_ne s1 s2 "gray_matter_right" k hd2 hk2,
      getVal_delVal_ne s s1 "gray_matter_left" k hd1 hk1]

theorem getVal_deleteFive_deleted (s s' : Sample)
    (hnodup : (s.map Prod.fst).Nodup) (h : deleteFive s = .ok s') :
    getVal s' "gray_matter_left" = none
    ∧ getVal s' "gray_matter_right" = none
    ∧ getVal s' "resectable_left" = none
    ∧ getVal s' "resectable_right" = none
    ∧ getVal s' "noise" = none := by
  obtain ⟨s1, s2, s3, s4, hd1, hd2, hd3, hd4, hd5⟩ := deleteFive_ok_elim s s' h
  have hn1 : (s1.map Prod.fst).Nodup := nodup_delVal s s1 _ hnodup hd1
  have hn2 : (s2.map Prod.fst).Nodup := nodup_delVal s1 s2 _ hn1 hd2
  have hn3 : (s3.map Prod.fst).Nodup := nodup_delVal s2 s3 _ hn2 hd3
  have hn4 : (s4.map Prod.fst).Nodup := nodup_delVal s3 s4 _ hn3 hd4
  refine ⟨?_, ?_, ?_, ?_, ?_⟩
  · rw [getVal_delVal_ne s4 s' "noise" _ hd5 (by decide),
        getVal_delVal_ne s3 s4 "resectable_right" _ hd4 (by decide),
        getVal_delVal_ne s2 s3 "resectable_left" _ hd3 (by decide),
        getVal_delVal_ne s1 s2 "gray_matter_right" _ hd2 (by decide)]
    exact getVal_delVal_self s s1 _ hnodup hd1
  · rw [getVal_delVal_ne s4 s' "noise" _ hd5 (by decide),
        getVal_delVal_ne s3 s4 "resectable_right" _ hd4 (by decide),
        getVal_delVal_ne s2 s3 "resectable_left" _ hd3 (by decide)]
    exact getVal_delVal_self s1 s2 _ hn1 hd2
  · rw [getVal_delVal_ne s4 s' "noise" _ hd5 (by decide),
        getVal_delVal_ne s3 s4 "resectable_right" _ hd4 (by decide)]
    exact getVal_delVal_self s2 s3 _ hn2 hd3
  · rw [getVal_delVal_ne s4 s' "noise" _ hd5 (by decide)]
    exact getVal_delVal_self s3 s4 _ hn3 hd4
  · exact getVal_delVal_self s4 s' _ hn4 hd5

theorem get_params_ok_elim (volumes : Option (List ℚ))
    (volumes_range : Option (ℚ × ℚ))
    (sigmas_range radii_ratio_range angles_range : ℚ × ℚ) (rng : ℕ → ℚ)
    (p : ParamsDict)
    (h : get_params volumes volumes_range sigmas_range radii_ratio_range
           angles_range rng = .ok p) :
    ∃ volume, sample_volume volumes volumes_range (rng 1) = .ok volume
      ∧ p = [("hemisphere",
               PVal.str (if flip_coin (rng 0) then Hemisphere.LEFT
                         else Hemisphere.RIGHT).value),
             ("volume", PVal.num volume),
             ("sigmas",
               PVal.list [uniform sigmas_range.1 sigmas_range.2 (rng 2),
                          uniform sigmas_range.1 sigmas_range.2 (rng 3),
                          uniform sigmas_range.1 sigmas_range.2 (rng 4)]),
             ("radii_ratio",
               PVal.num (uniform radii_ratio_range.1 radii_ratio_range.2
                          (rng 5))),
             ("angles",
               PVal.list [uniform angles_range.1 angles_range.2 (rng 6),
                          uniform angles_range.1 angles_range.2 (rng 7),
                          uniform angles_range.1 angles_range.2 (rng 8)])] := by
  unfold get_params at h
  cases hv : sample_volume volumes volumes_range (rng 1) with
  | error e => rw [hv] at h; exact Except.noConfusion h
  | ok volume =>
    rw [hv] at h
    injection h with h'
    exact ⟨volume, rfl, h'.symm⟩

theorem prepare_ok_elim (cfg : Config) (resect : ResectFn) (rng : ℕ → ℚ)
    (s : Sample) (p2 : ParamsDict) (img lbl : Arr4)
    (h : prepare cfg resect rng s = .ok (p2, img, lbl)) :
    ∃ p rb rm c,
      p2 = psetVal p "resection_center" (PVal.point c)
      ∧ img = add_channels_axis (sitk_to_array rb)
      ∧ lbl = add_background_channel (sitk_to_array rm)
      ∧ get_params cfg.volumes cfg.volumes_range cfg.sigmas_range
          cfg.radii_ratio_range cfg.angles_range rng = .ok p := by
  unfold prepare at h
  iterate 14 (all_goals try split at h)
  all_goals try exact Except.noConfusion h
  injection h with h'
  have h1 := congrArg Prod.fst h'
  have h23 := congrArg Prod.snd h'
  have h2 := congrArg Prod.fst h23
  have h3 := congrArg Prod.snd h23
  simp only at h1 h2 h3
  exact ⟨_, _, _, _, h1.symm, h2.symm, h3.symm, by assumption⟩

theorem uniform_mem (lo hi u : ℚ) (hle : lo ≤ hi) (h0 : 0 ≤ u) (h1 : u < 1) :
    lo ≤ uniform lo hi u ∧ uniform lo hi u ≤ hi := by
  unfold uniform
  constructor
  · nlinarith
  · nlinarith

theorem randint_lt (n : ℕ) (u : ℚ) (hn : 0 < n) (h0 : 0 ≤ u) (h1 : u < 1) :
    randint n u < n := by
  unfold randint
  have hnq : (0:ℚ) < (n:ℚ) := by exact_mod_cast hn
  have hub : u * n < n := by nlinarith
  have hfl : ⌊u * (n:ℚ)⌋ < (n:ℤ) := Int.floor_lt.mpr (by exact_mod_cast hub)
  omega

theorem randint_eq_iff (n i : ℕ) (u : ℚ) (hn : 0 < n) (h0 : 0 ≤ u) :
    (randint n u = i ↔ (i:ℚ) / n ≤ u ∧ u < ((i:ℚ) + 1) / n) := by
  have hnq : (0:ℚ) < (n:ℚ) := by exact_mod_cast hn
  have hfl0 : 0 ≤ ⌊u * (n:ℚ)⌋ := Int.floor_nonneg.mpr (by positivity)
  have key : randint n u = i ↔ ⌊u * (n:ℚ)⌋ = (i:ℤ) := by
    unfold randint
    constructor
    · intro h
      rw [← h]
      exact (Int.toNat_of_nonneg hfl0).symm
    · intro h
      rw [h]
      exact Int.toNat_natCast i
  rw [key, Int.floor_eq_iff, div_le_iff₀ hnq, lt_div_iff₀ hnq]
  constructor
  · rintro ⟨a, b⟩
    constructor
    · exact_mod_cast a
    · have : u * (n:ℚ) < (i:ℚ) + 1 := by exact_mod_cast b
      linarith
  · rintro ⟨a, b⟩
    constructor
    · exact_mod_cast a
    · have : u * (n:ℚ) < (i:ℚ) + 1 := by linarith
      exact_mod_cast this

theorem list_getD_mem (l : List ℚ) (i : ℕ) (d : ℚ) (h : i < l.length) :
    l.getD i d ∈ l := by
  induction l generalizing i with
  | nil => simp at h
  | cons a t ih =>
    cases i with
    | zero => simp [List.getD_cons_zero]
    | succ j =>
      rw [List.getD_cons_succ]
      exact List.mem_cons_of_mem a (ih j (by simpa using h))

theorem get_params_hemisphere (volumes : Option (List ℚ))
    (volumes_range : Option (ℚ × ℚ))
    (sigmas_range radii_ratio_range angles_range : ℚ × ℚ) (rng : ℕ → ℚ)
    (p : ParamsDict)
    (h : get_params volumes volumes_range sigmas_range radii_ratio_range
           angles_range rng = .ok p) :
    lookupP p "hemisphere"
      = some (PVal.str (if flip_coin (rng 0) then "left" else "right")) := by
  obtain ⟨volume, hv, hp⟩ := get_params_ok_elim _ _ _ _ _ _ _ h
  subst hp
  cases hc : flip_coin (rng 0) <;> rfl

theorem call_ok_elim (cfg : Config) (resect : ResectFn) (rng : ℕ → ℚ)
    (s s' : Sample) (h : call cfg resect rng s = .ok s') :
    ∃ p2 img lbl,
      prepare cfg resect rng s = .ok (p2, img, lbl)
      ∧ ((cfg.delete_keys = true
           ∧ deleteFive (setVal (setVal (setVal s "random_resection"
               (Val.params p2)) "image" (Val.a4 img)) "label" (Val.a4 lbl))
             = .ok s')
         ∨ (cfg.delete_keys = false
            ∧ s' = setVal (setVal (setVal s "random_resection"
                (Val.params p2)) "image" (Val.a4 img)) "label" (Val.a4 lbl))) := by
  unfold call at h
  split at h
  next e heq => exact Except.noConfusion h
  next p2 img lbl heq =>
    split at h
    next hdel =>
      exact ⟨p2, img, lbl, heq, Or.inl ⟨hdel, h⟩⟩
    next hdel =>
      injection h with h'
      exact ⟨p2, img, lbl, heq, Or.inr ⟨Bool.eq_false_iff.mpr hdel, h'.symm⟩⟩

/-- C1: constructing `RandomResection` succeeds exactly when one of
{volumes, volumes_range} is supplied (non-None), storing the given
configuration; when both or neither is supplied it raises `ValueError`.
The check is deterministic and happens before any random number is
consumed (the embedded constructor takes no rng stream at all), and in
the error case no configuration state is produced. -/
theorem C1_init_mutual_exclusion :
    ∀ (vr : Option (ℚ × ℚ)) (v : Option (List ℚ)) (sr rr ar : ℚ × ℚ)
      (dk vb : Bool),
      ((v.isSome = true ∧ vr = none) ∨ (v = none ∧ vr.isSome = true) →
        RandomResection_init vr v sr rr ar dk vb
          = .ok ⟨vr, v, sr, rr, ar, dk, vb⟩)
      ∧ ((v = none ∧ vr = none) ∨ (v.isSome = true ∧ vr.isSome = true) →
        RandomResection_init vr v sr rr ar dk vb
          = .error "ValueError: Please enter a value for volumes or volumes_range") := by
  intro vr v sr rr ar dk vb
  constructor
  · rintro (⟨hv, hvr⟩ | ⟨hv, hvr⟩)
    · subst hvr
      rcases v with _ | x
      · simp at hv
      · rfl
    · subst hv
      rcases vr with _ | r
      · simp at hvr
      · rfl
  · rintro (⟨hv, hvr⟩ | ⟨hv, hvr⟩)
    · subst hv
      subst hvr
      rfl
    · rcases v with _ | x
      · simp at hv
      · rcases vr with _ | r
        · simp at hvr
        · rfl

/-- C1 witness: a concrete successful construction (catalog only) and a
concrete failing construction (neither supplied). -/
theorem C1_init_mutual_exclusion_witness :
    RandomResection_init none (some [100]) (1/2, 1) (1/2, 3/2) (0, 180)
        true false
      = .ok ⟨none, some [100], (1/2, 1), (1/2, 3/2), (0, 180), true, false⟩
    ∧ RandomResection_init none none (1/2, 1) (1/2, 3/2) (0, 180) true false
      = .error "ValueError: Please enter a value for volumes or volumes_range" :=
  ⟨(C1_init_mutual_exclusion none (some [100]) (1/2, 1) (1/2, 3/2) (0, 180)
      true false).1 (Or.inl ⟨rfl, rfl⟩),
   (C1_init_mutual_exclusion none none (1/2, 1) (1/2, 3/2) (0, 180)
      true false).2 (Or.inl ⟨rfl, rfl⟩)⟩

/-- C2: for every mask array whose voxels are all in {0,1},
`add_background_channel` returns a 2-channel label whose foreground
channel (channel 1) is in {0,1} at every voxel, whose background channel
(channel 0) equals 1 − foreground elementwise, and whose two channels
sum to 1 at every voxel. -/
theorem C2_background_complement :
    ∀ f : Arr3, (∀ i j k, f.data i j k = 0 ∨ f.data i j k = 1) →
      (add_background_channel f).n0 = 2
      ∧ (∀ i j k, (add_background_channel f).data 1 i j k = 0
                  ∨ (add_background_channel f).data 1 i j k = 1)
      ∧ (∀ i j k, (add_background_channel f).data 0 i j k
                  = 1 - (add_background_channel f).data 1 i j k)
      ∧ (∀ i j k, (add_background_channel f).data 0 i j k
                  + (add_background_channel f).data 1 i j k = 1) := by
  intro f hf
  refine ⟨rfl, ?_, ?_, ?_⟩
  · intro i j k
    exact hf i j k
  · intro i j k
    rfl
  · intro i j k
    show (1 - f.data i j k) + f.data i j k = 1
    ring

/-- C2 witness: the constant-1 foreground mask. -/
theorem C2_background_complement_witness :
    (add_background_channel ⟨1, 1, 1, fun _ _ _ => 1⟩).n0 = 2
    ∧ (∀ i j k,
        (add_background_channel ⟨1, 1, 1, fun _ _ _ => 1⟩).data 0 i j k
        + (add_background_channel ⟨1, 1, 1, fun _ _ _ => 1⟩).data 1 i j k
        = 1) :=
  ⟨(C2_background_complement ⟨1, 1, 1, fun _ _ _ => 1⟩
      (fun _ _ _ => Or.inr rfl)).1,
   (C2_background_complement ⟨1, 1, 1, fun _ _ _ => 1⟩
      (fun _ _ _ => Or.inr rfl)).2.2.2⟩

/-- A demonstration rng stream: every unit draw is 1/2. -/
def demoRng : ℕ → ℚ := fun _ => 1/2

/-- C5: `get_params` performs no guard against a non-positive sampled
target volume: with a catalog containing only −1 it returns the sampled
parameters (volume = −1 ≤ 0) instead of raising, contradicting the
spec's requirement to guard and fail on degenerate volumes. -/
theorem C5_no_guard_on_nonpositive_volume :
    ∃ p, get_params (some [(-1 : ℚ)]) none (1/2, 1) (1/2, 3/2) (0, 180)
           demoRng = .ok p
      ∧ lookupP p "volume" = some (PVal.num (-1))
      ∧ (-1 : ℚ) ≤ 0 := by
  have h1 : randint 1 (demoRng 1) = 0 := by
    unfold randint
    have hfl : ⌊demoRng 1 * ((1:ℕ):ℚ)⌋ = 0 := by
      rw [Int.floor_eq_iff]
      norm_num [demoRng]
    rw [hfl]
    rfl
  have hsv : sample_volume (some [(-1 : ℚ)]) none (demoRng 1) = .ok (-1) := by
    simp [sample_volume, h1]
  refine ⟨[("hemisphere",
             PVal.str (if flip_coin (demoRng 0) then Hemisphere.LEFT
                       else Hemisphere.RIGHT).value),
           ("volume", PVal.num (-1)),
           ("sigmas",
             PVal.list [uniform (1/2) 1 (demoRng 2), uniform (1/2) 1 (demoRng 3),
                        uniform (1/2) 1 (demoRng 4)]),
           ("radii_ratio", PVal.num (uniform (1/2) (3/2) (demoRng 5))),
           ("angles",
             PVal.list [uniform 0 180 (demoRng 6), uniform 0 180 (demoRng 7),
                        uniform 0 180 (demoRng 8)])], ?_, rfl, by norm_num⟩
  unfold get_params
  rw [hsv]

/-- C10: whenever `get_params` returns, its dictionary has exactly the
five keys hemisphere, volume, sigmas, radii_ratio, angles in insertion
order; hemisphere is the string "left" or "right" (the enum's `.value`,
not the enum member); sigmas and angles are lists of exactly 3 scalars;
volume and radii_ratio are scalars; and resection_center is absent. -/
theorem C10_params_dict_shape :
    ∀ (volumes : Option (List ℚ)) (vr : Option (ℚ × ℚ)) (sr rr ar : ℚ × ℚ)
      (rng : ℕ → ℚ) (p : ParamsDict),
      get_params volumes vr sr rr ar rng = .ok p →
      p.map Prod.fst = ["hemisphere", "volume", "sigmas", "radii_ratio", "angles"]
      ∧ (lookupP p "hemisphere" = some (PVal.str "left")
         ∨ lookupP p "hemisphere" = some (PVal.str "right"))
      ∧ (∃ q, lookupP p "volume" = some (PVal.num q))
      ∧ (∃ l, lookupP p "sigmas" = some (PVal.list l) ∧ l.length = 3)
      ∧ (∃ q, lookupP p "radii_ratio" = some (PVal.num q))
      ∧ (∃ l, lookupP p "angles" = some (PVal.list l) ∧ l.length = 3)
      ∧ lookupP p "resection_center" = none := by
  intro volumes vr sr rr ar rng p h
  obtain ⟨volume, hv, hp⟩ := get_params_ok_elim _ _ _ _ _ _ _ h
  subst hp
  refine ⟨rfl, ?_, ⟨_, rfl⟩, ⟨_, rfl, rfl⟩, ⟨_, rfl⟩, ⟨_, rfl, rfl⟩, rfl⟩
  cases hc : flip_coin (rng 0)
  · exact Or.inr rfl
  · exact Or.inl rfl

/-- The parameters dictionary sampled by the demo configuration
(continuous volume range, all unit draws 1/2). -/
def demoParams : ParamsDict :=
  match get_params none (some (50, 5000)) (1/2, 1) (1/2, 3/2) (0, 180)
      demoRng with
  | .ok p => p
  | .error _ => []

/-- C10 witness: the demo draw yields exactly the five keys in order. -/
theorem C10_params_dict_shape_witness :
    demoParams.map Prod.fst
      = ["hemisphere", "volume", "sigmas", "radii_ratio", "angles"] :=
  (C10_params_dict_shape none (some (50, 5000)) (1/2, 1) (1/2, 3/2) (0, 180)
    demoRng demoParams rfl).1

/-- C4: when the configured bounds satisfy lo ≤ hi and the rng draws lie
in [0,1), every parameters dictionary produced by `get_params` has its 3
sigmas inside the inclusive sigmas range, its radii_ratio inside the
inclusive radii_ratio range, and its 3 angles inside the inclusive
angles range. -/
theorem C4_samples_within_inclusive_ranges :
    ∀ (volumes : Option (List ℚ)) (vr : Option (ℚ × ℚ)) (sr rr ar : ℚ × ℚ)
      (rng : ℕ → ℚ) (p : ParamsDict),
      sr.1 ≤ sr.2 → rr.1 ≤ rr.2 → ar.1 ≤ ar.2 → rngValid rng →
      get_params volumes vr sr rr ar rng = .ok p →
      (∃ l, lookupP p "sigmas" = some (PVal.list l) ∧ l.length = 3
            ∧ ∀ x ∈ l, sr.1 ≤ x ∧ x ≤ sr.2)
      ∧ (∃ q, lookupP p "radii_ratio" = some (PVal.num q)
              ∧ rr.1 ≤ q ∧ q ≤ rr.2)
      ∧ (∃ l, lookupP p "angles" = some (PVal.list l) ∧ l.length = 3
              ∧ ∀ x ∈ l, ar.1 ≤ x ∧ x ≤ ar.2) := by
  intro volumes vr sr rr ar rng p hs hr ha hrng h
  obtain ⟨volume, hv, hp⟩ := get_params_ok_elim _ _ _ _ _ _ _ h
  subst hp
  refine ⟨⟨_, rfl, rfl, ?_⟩, ⟨_, rfl, ?_⟩, ⟨_, rfl, rfl, ?_⟩⟩
  · intro x hx
    rw [List.mem_cons, List.mem_cons, List.mem_singleton] at hx
    rcases hx with hx | hx | hx
    · exact hx ▸ uniform_mem _ _ _ hs (hrng 2).1 (hrng 2).2
    · exact hx ▸ uniform_mem _ _ _ hs (hrng 3).1 (hrng 3).2
    · exact hx ▸ uniform_mem _ _ _ hs (hrng 4).1 (hrng 4).2
  · exact uniform_mem _ _ _ hr (hrng 5).1 (hrng 5).2
  · intro x hx
    rw [List.mem_cons, List.mem_cons, List.mem_singleton] at hx
    rcases hx with hx | hx | hx
    · exact hx ▸ uniform_mem _ _ _ ha (hrng 6).1 (hrng 6).2
    · exact hx ▸ uniform_mem _ _ _ ha (hrng 7).1 (hrng 7).2
    · exact hx ▸ uniform_mem _ _ _ ha (hrng 8).1 (hrng 8).2

/-- C4 witness: at the demo configuration the radii ratio lies in
[1/2, 3/2]. -/
theorem C4_samples_within_inclusive_ranges_witness :
    ∃ q, lookupP demoParams "radii_ratio" = some (PVal.num q)
      ∧ (1:ℚ)/2 ≤ q ∧ q ≤ 3/2 :=
  (C4_samples_within_inclusive_ranges none (some (50, 5000)) (1/2, 1)
    (1/2, 3/2) (0, 180) demoRng demoParams (by norm_num) (by norm_num)
    (by norm_num) (fun n => ⟨by norm_num [demoRng], by norm_num [demoRng]⟩)
    rfl).2.1

/-- C6: with a catalog, `get_params` succeeds (on a non-empty catalog)
and the returned target volume is the catalog entry at the index drawn
by `randint` over the catalog length, hence an element of the catalog,
and the index draw partitions the unit interval into equal-width cells
(the uniform distribution over the catalog length); with only a range,
the volume is the inverse-CDF image `uniform lo hi u` of the unit draw,
the uniform draw from the continuous range. -/
theorem C6_volume_selection :
    (∀ (vs : List ℚ) (vr : Option (ℚ × ℚ)) (sr rr ar : ℚ × ℚ)
       (rng : ℕ → ℚ), vs ≠ [] → rngValid rng →
       ∃ p, get_params (some vs) vr sr rr ar rng = .ok p
         ∧ randint vs.length (rng 1) < vs.length
         ∧ lookupP p "volume"
             = some (PVal.num (vs.getD (randint vs.length (rng 1)) 0))
         ∧ vs.getD (randint vs.length (rng 1)) 0 ∈ vs)
    ∧ (∀ (lo hi : ℚ) (sr rr ar : ℚ × ℚ) (rng : ℕ → ℚ),
       ∃ p, get_params none (some (lo, hi)) sr rr ar rng = .ok p
         ∧ lookupP p "volume" = some (PVal.num (uniform lo hi (rng 1))))
    ∧ (∀ (n i : ℕ) (u : ℚ), 0 < n → i < n → 0 ≤ u →
       (randint n u = i ↔ (i:ℚ) / n ≤ u ∧ u < ((i:ℚ) + 1) / n)) := by
  refine ⟨?_, ?_, ?_⟩
  · intro vs vr sr rr ar rng hne hrng
    have hn : 0 < vs.length := List.length_pos.mpr hne
    have hlen : ¬ vs.length = 0 := Nat.pos_iff_ne_zero.mp hn
    have hlt : randint vs.length (rng 1) < vs.length :=
      randint_lt _ _ hn (hrng 1).1 (hrng 1).2
    have hsv : sample_volume (some vs) vr (rng 1)
        = .ok (vs.getD (randint vs.length (rng 1)) 0) := by
      show (if vs.length = 0 then
              (Except.error "RuntimeError: randint on empty catalog"
                : Except String ℚ)
            else .ok (vs.getD (randint vs.length (rng 1)) 0))
          = .ok (vs.getD (randint vs.length (rng 1)) 0)
      rw [if_neg hlen]
    have hgp : get_params (some vs) vr sr rr ar rng
        = .ok [("hemisphere",
                 PVal.str (if flip_coin (rng 0) then Hemisphere.LEFT
                           else Hemisphere.RIGHT).value),
               ("volume", PVal.num (vs.getD (randint vs.length (rng 1)) 0)),
               ("sigmas",
                 PVal.list [uniform sr.1 sr.2 (rng 2), uniform sr.1 sr.2 (rng 3),
                            uniform sr.1 sr.2 (rng 4)]),
               ("radii_ratio", PVal.num (uniform rr.1 rr.2 (rng 5))),
               ("angles",
                 PVal.list [uniform ar.1 ar.2 (rng 6), uniform ar.1 ar.2 (rng 7),
                            uniform ar.1 ar.2 (rng 8)])] := by
      unfold get_params
      rw [hsv]
    exact ⟨_, hgp, hlt, rfl, list_getD_mem vs _ 0 hlt⟩
  · intro lo hi sr rr ar rng
    exact ⟨_, rfl, rfl⟩
  · intro n i u hn hi h0
    exact randint_eq_iff n i u hn h0

/-- C6 witness: with the two-element catalog [3, 5] every valid draw
selects a catalog element, instantiated at the all-1/2 demo stream. -/
theorem C6_volume_selection_witness :
    ∃ p, get_params (some [(3:ℚ), 5]) none (1/2, 1) (1/2, 3/2) (0, 180)
           demoRng = .ok p
      ∧ randint (List.length [(3:ℚ), 5]) (demoRng 1)
          < List.length [(3:ℚ), 5]
      ∧ lookupP p "volume"
          = some (PVal.num ([(3:ℚ), 5].getD
              (randint (List.length [(3:ℚ), 5]) (demoRng 1)) 0))
      ∧ [(3:ℚ), 5].getD (randint (List.length [(3:ℚ), 5]) (demoRng 1)) 0
          ∈ [(3:ℚ), 5] :=
  C6_volume_selection.1 [(3:ℚ), 5] none (1/2, 1) (1/2, 3/2) (0, 180) demoRng
    (by simp) (fun n => ⟨by norm_num [demoRng], by norm_num [demoRng]⟩)

/-- C7: the hemisphere of `get_params` is "left" exactly when the coin
draw satisfies `flip_coin`, i.e. exactly when the unit draw is ≥ 1/2;
and under the uniform (Lebesgue) measure on the real unit interval the
coin-true region and the coin-false region each have measure 1/2, so
left and right are each chosen with probability 0.5. -/
theorem C7_hemisphere_unbiased_coin :
    (∀ u : ℚ, flip_coin u = true ↔ 1/2 ≤ u)
    ∧ (∀ (volumes : Option (List ℚ)) (vr : Option (ℚ × ℚ))
         (sr rr ar : ℚ × ℚ) (rng : ℕ → ℚ) (p : ParamsDict),
        get_params volumes vr sr rr ar rng = .ok p →
        (lookupP p "hemisphere" = some (PVal.str "left")
          ↔ flip_coin (rng 0) = true))
    ∧ MeasureTheory.volume {u : ℝ | u ∈ Set.Ico (0:ℝ) 1 ∧ flip_coinR u}
        = ENNReal.ofReal (1/2)
    ∧ MeasureTheory.volume {u : ℝ | u ∈ Set.Ico (0:ℝ) 1 ∧ ¬ flip_coinR u}
        = ENNReal.ofReal (1/2) := by
  refine ⟨?_, ?_, ?_, ?_⟩
  · intro u
    simp [flip_coin, ge_iff_le]
  · intro volumes vr sr rr ar rng p h
    rw [get_params_hemisphere volumes vr sr rr ar rng p h]
    cases hc : flip_coin (rng 0)
    · constructor
      · intro hh
        exact absurd (PVal.str.inj (Option.some.inj hh)) (by decide)
      · intro hh
        exact absurd hh (by decide)
    · exact ⟨fun _ => rfl, fun _ => rfl⟩
  · have hset : {u : ℝ | u ∈ Set.Ico (0:ℝ) 1 ∧ flip_coinR u}
        = Set.Ico (1/2 : ℝ) 1 := by
      ext u
      simp only [Set.mem_setOf_eq, Set.mem_Ico, flip_coinR]
      constructor
      · rintro ⟨⟨_, h1⟩, hc⟩
        exact ⟨hc, h1⟩
      · rintro ⟨hc, h1⟩
        exact ⟨⟨le_trans (by norm_num) hc, h1⟩, hc⟩
    rw [hset, Real.volume_Ico]
    norm_num
  · have hset : {u : ℝ | u ∈ Set.Ico (0:ℝ) 1 ∧ ¬ flip_coinR u}
        = Set.Ico (0 : ℝ) (1/2) := by
      ext u
      simp only [Set.mem_setOf_eq, Set.mem_Ico, flip_coinR, not_le]
      constructor
      · rintro ⟨⟨h0, _⟩, hc⟩
        exact ⟨h0, hc⟩
      · rintro ⟨h0, hc⟩
        exact ⟨⟨h0, lt_trans hc (by norm_num)⟩, hc⟩
    rw [hset, Real.volume_Ico]
    norm_num

/-- C7 witness: a concrete coin draw of 3/4 is heads (left), and the
demo parameters dictionary realizes the hemisphere-coin equivalence. -/
theorem C7_hemisphere_unbiased_coin_witness :
    flip_coin (3/4) = true
    ∧ (lookupP demoParams "hemisphere" = some (PVal.str "left")
        ↔ flip_coin (demoRng 0) = true) :=
  ⟨(C7_hemisphere_unbiased_coin.1 (3/4)).mpr (by norm_num),
   C7_hemisphere_unbiased_coin.2.1 none (some (50, 5000)) (1/2, 1) (1/2, 3/2)
     (0, 180) demoRng demoParams rfl⟩

/-- C3 (amended): first, any failure raised by `__call__` during the
read/compute phase — parameter sampling, the fixed-key reads, `_resect`,
array reshaping, i.e. anything before the sample write-back —
propagates with the caller's sample unchanged, for every sample without
condition; second, when the five consumed keys are all present in the
sample (as the constructor's documented preconditions require whenever
`delete_keys` is set), every failing call leaves the sample unchanged.
(As stated over all samples the claim is false: see the counterexample,
where a missing `gray_matter_right` key makes the deletion block raise
after `image`, `label` and `random_resection` were already written.) -/
theorem C3_no_partial_mutation_given_keys :
    ∀ (cfg : Config) (resect : ResectFn) (rng : ℕ → ℚ) (s : Sample),
      (∀ e, prepare cfg resect rng s = .error e →
        call cfg resect rng s = .error (e, s))
      ∧ (∀ (e : String) (s' : Sample),
          (cfg.delete_keys = true →
            (getVal s "gray_matter_left").isSome = true
            ∧ (getVal s "gray_matter_right").isSome = true
            ∧ (getVal s "resectable_left").isSome = true
            ∧ (getVal s "resectable_right").isSome = true
            ∧ (getVal s "noise").isSome = true) →
          call cfg resect rng s = .error (e, s') → s' = s) := by
  intro cfg resect rng s
  constructor
  · intro e he
    unfold call
    rw [he]
  · intro e s' hkeys h
    unfold call at h
    split at h
    next e' heq =>
      injection h with h'
      exact (congrArg Prod.snd h').symm
    next p2 img lbl heq =>
      split at h
      next hdel =>
        obtain ⟨hk1, hk2, hk3, hk4, hk5⟩ := hkeys hdel
        have hset : ∀ k : String, (getVal s k).isSome = true →
            (getVal (setVal (setVal (setVal s "random_resection"
                (Val.params p2)) "image" (Val.a4 img)) "label"
                (Val.a4 lbl)) k).isSome = true := by
          intro k hk
          exact isSome_getVal_setVal _ _ _ _
            (isSome_getVal_setVal _ _ _ _ (isSome_getVal_setVal _ _ _ _ hk))
        obtain ⟨s5, hok⟩ := deleteFive_ok_of_present _
          (hset _ hk1) (hset _ hk2) (hset _ hk3) (hset _ hk4) (hset _ hk5)
        rw [hok] at h
        exact Except.noConfusion h
      next hdel =>
        exact Except.noConfusion h

/-- The demonstration `_resect` stand-in: always succeeds, returning a
1×1×1 resected brain, an all-ones resection mask and center (0,0,0). -/
def demoResect : ResectFn :=
  fun _ _ _ _ _ _ _ _ =>
    .ok (⟨1, 1, 1, fun _ _ _ => 0⟩, ⟨1, 1, 1, fun _ _ _ => 1⟩,
         ((0 : ℚ), (0 : ℚ), (0 : ℚ)))

/-- The demonstration configuration: volumes_range (50, 5000), default
ranges, delete_keys true, verbose false. -/
def demoConfig : Config :=
  ⟨some (50, 5000), none, (1/2, 1), (1/2, 3/2), (0, 180), true, false⟩

/-- A sample missing `gray_matter_right` (every other boundary key
present); with the all-1/2 rng the hemisphere is left, so the
read/compute phase succeeds and only the deletion block can fail. -/
def c3Sample : Sample :=
  [("image", Val.a4 ⟨1, 1, 1, 1, fun _ _ _ _ => 100⟩),
   ("affine", Val.aff fun _ _ => 0),
   ("gray_matter_left", Val.a3 ⟨1, 1, 1, fun _ _ _ => 1⟩),
   ("resectable_left", Val.a3 ⟨1, 1, 1, fun _ _ _ => 1⟩),
   ("resectable_right", Val.a3 ⟨1, 1, 1, fun _ _ _ => 1⟩),
   ("noise", Val.a3 ⟨1, 1, 1, fun _ _ _ => 0⟩)]

/-- C3 counterexample: on a sample lacking only `gray_matter_right`,
the call raises (KeyError in the deletion block) *after* the sample was
mutated: the error-time sample has a `label` key the original never had
and has lost `gray_matter_left` — a partially mutated caller record,
contradicting the claim that no raising execution mutates the sample. -/
theorem C3_partial_mutation_counterexample :
    ∃ e s', call demoConfig demoResect demoRng c3Sample = .error (e, s')
      ∧ (getVal s' "label").isSome = true
      ∧ (getVal c3Sample "label").isSome = false
      ∧ (getVal s' "gray_matter_left").isSome = false
      ∧ (getVal c3Sample "gray_matter_left").isSome = true := by
  exact ⟨_, _, by with_unfolding_all rfl, by with_unfolding_all rfl, rfl,
         by with_unfolding_all rfl, rfl⟩

/-- A sample that carries the five consumed keys but no `image` key, so
the call fails during the read phase. -/
def c3SampleNoImage : Sample :=
  [("affine", Val.aff fun _ _ => 0),
   ("gray_matter_left", Val.a3 ⟨1, 1, 1, fun _ _ _ => 1⟩),
   ("gray_matter_right", Val.a3 ⟨1, 1, 1, fun _ _ _ => 1⟩),
   ("resectable_left", Val.a3 ⟨1, 1, 1, fun _ _ _ => 1⟩),
   ("resectable_right", Val.a3 ⟨1, 1, 1, fun _ _ _ => 1⟩),
   ("noise", Val.a3 ⟨1, 1, 1, fun _ _ _ => 0⟩)]

/-- An rng stream whose unit draws are all 1/4, so the hemisphere coin
comes up tails and the right hemisphere is selected. -/
def rngRight : ℕ → ℚ := fun _ => 1/4

/-- C3 witness: first, on the key-missing `c3Sample` with the coin
picking the right hemisphere, the read of `gray_matter_right` fails
before the write-back and the call propagates with the sample exactly
as it was; second, a concrete failing call (missing `image`) on a
sample with all five consumed keys present also leaves the sample
unchanged. -/
theorem C3_no_partial_mutation_given_keys_witness :
    call demoConfig demoResect rngRight c3Sample
      = .error ("KeyError: gray_matter", c3Sample)
    ∧ call demoConfig demoResect demoRng c3SampleNoImage
      = .error ("KeyError: image", c3SampleNoImage)
    ∧ c3SampleNoImage = c3SampleNoImage :=
  ⟨(C3_no_partial_mutation_given_keys demoConfig demoResect rngRight
      c3Sample).1 "KeyError: gray_matter" (by with_unfolding_all rfl),
   rfl,
   (C3_no_partial_mutation_given_keys demoConfig demoResect demoRng
      c3SampleNoImage).2 "KeyError: image" c3SampleNoImage
     (fun _ => ⟨rfl, rfl, rfl, rfl, rfl⟩) rfl⟩

/-- C8: every successful call writes back an `image` that is the 3-D
resected array with a leading channel axis of size 1 (4-D, channel
first), a `label` that is 2-channel in the order (background,
foreground) with background = 1 − foreground, and a `random_resection`
entry holding the sampled parameters extended with the realized
`resection_center`. -/
theorem C8_success_output_shapes :
    ∀ (cfg : Config) (resect : ResectFn) (rng : ℕ → ℚ) (s s' : Sample),
      call cfg resect rng s = .ok s' →
      ∃ (brainArr maskArr : Arr3) (p : ParamsDict) (c : Point3),
        getVal s' "image" = some (Val.a4 (add_channels_axis brainArr))
        ∧ (add_channels_axis brainArr).n0 = 1
        ∧ getVal s' "label" = some (Val.a4 (add_background_channel maskArr))
        ∧ (add_background_channel maskArr).n0 = 2
        ∧ (∀ i j k, (add_background_channel maskArr).data 0 i j k
                    = 1 - maskArr.data i j k)
        ∧ (∀ i j k, (add_background_channel maskArr).data 1 i j k
                    = maskArr.data i j k)
        ∧ getVal s' "random_resection"
            = some (Val.params (psetVal p "resection_center" (PVal.point c)))
        ∧ get_params cfg.volumes cfg.volumes_range cfg.sigmas_range
            cfg.radii_ratio_range cfg.angles_range rng = .ok p
        ∧ lookupP (psetVal p "resection_center" (PVal.point c))
            "resection_center" = some (PVal.point c) := by
  intro cfg resect rng s s' h
  obtain ⟨p2, img, lbl, hprep, hrest⟩ := call_ok_elim cfg resect rng s s' h
  obtain ⟨p, rb, rm, c, hp2, himg, hlbl, hgp⟩ :=
    prepare_ok_elim cfg resect rng s p2 img lbl hprep
  subst hp2
  subst himg
  subst hlbl
  have himage : getVal s' "image"
      = some (Val.a4 (add_channels_axis (sitk_to_array rb))) := by
    rcases hrest with ⟨_, hdel⟩ | ⟨_, hs3⟩
    · rw [getVal_deleteFive_ne _ _ hdel "image" (by decide) (by decide)
        (by decide) (by decide) (by decide)]
      rw [getVal_setVal_ne _ _ _ _ (by decide)]
      exact getVal_setVal_self _ _ _
    · subst hs3
      rw [getVal_setVal_ne _ _ _ _ (by decide)]
      exact getVal_setVal_self _ _ _
  have hlabel : getVal s' "label"
      = some (Val.a4 (add_background_channel (sitk_to_array rm))) := by
    rcases hrest with ⟨_, hdel⟩ | ⟨_, hs3⟩
    · rw [getVal_deleteFive_ne _ _ hdel "label" (by decide) (by decide)
        (by decide) (by decide) (by decide)]
      exact getVal_setVal_self _ _ _
    · subst hs3
      exact getVal_setVal_self _ _ _
  have hmeta : getVal s' "random_resection"
      = some (Val.params (psetVal p "resection_center" (PVal.point c))) := by
    rcases hrest with ⟨_, hdel⟩ | ⟨_, hs3⟩
    · rw [getVal_deleteFive_ne _ _ hdel "random_resection" (by decide)
        (by decide) (by decide) (by decide) (by decide)]
      rw [getVal_setVal_ne _ _ _ _ (by decide),
          getVal_setVal_ne _ _ _ _ (by decide)]
      exact getVal_setVal_self _ _ _
    · subst hs3
      rw [getVal_setVal_ne _ _ _ _ (by decide),
          getVal_setVal_ne _ _ _ _ (by decide)]
      exact getVal_setVal_self _ _ _
  exact ⟨sitk_to_array rb, sitk_to_array rm, p, c, himage, rfl, hlabel, rfl,
         fun i j k => rfl, fun i j k => rfl, hmeta, hgp,
         lookupP_psetVal_self p _ _⟩

/-- A complete demonstration sample: the six boundary keys plus one
unrelated key, all grids 1×1×1. -/
def demoSample : Sample :=
  [("image", Val.a4 ⟨1, 1, 1, 1, fun _ _ _ _ => 100⟩),
   ("affine", Val.aff fun _ _ => 0),
   ("gray_matter_left", Val.a3 ⟨1, 1, 1, fun _ _ _ => 1⟩),
   ("gray_matter_right", Val.a3 ⟨1, 1, 1, fun _ _ _ => 1⟩),
   ("resectable_left", Val.a3 ⟨1, 1, 1, fun _ _ _ => 1⟩),
   ("resectable_right", Val.a3 ⟨1, 1, 1, fun _ _ _ => 1⟩),
   ("noise", Val.a3 ⟨1, 1, 1, fun _ _ _ => 0⟩),
   ("extra", Val.a3 ⟨1, 1, 1, fun _ _ _ => 5⟩)]

/-- The sample returned by the successful demonstration call. -/
def demoCallResult : Sample :=
  match call demoConfig demoResect demoRng demoSample with
  | .ok s => s
  | .error _ => []

theorem demo_call_ok :
    call demoConfig demoResect demoRng demoSample = .ok demoCallResult := by
  with_unfolding_all rfl

/-- C8 witness: the demonstration call's output record. -/
theorem C8_success_output_shapes_witness :
    ∃ (brainArr maskArr : Arr3) (p : ParamsDict) (c : Point3),
      getVal demoCallResult "image" = some (Val.a4 (add_channels_axis brainArr))
      ∧ (add_channels_axis brainArr).n0 = 1
      ∧ getVal demoCallResult "label"
          = some (Val.a4 (add_background_channel maskArr))
      ∧ (add_background_channel maskArr).n0 = 2
      ∧ (∀ i j k, (add_background_channel maskArr).data 0 i j k
                  = 1 - maskArr.data i j k)
      ∧ (∀ i j k, (add_background_channel maskArr).data 1 i j k
                  = maskArr.data i j k)
      ∧ getVal demoCallResult "random_resection"
          = some (Val.params (psetVal p "resection_center" (PVal.point c)))
      ∧ get_params demoConfig.volumes demoConfig.volumes_range
          demoConfig.sigmas_range demoConfig.radii_ratio_range
          demoConfig.angles_range demoRng = .ok p
      ∧ lookupP (psetVal p "resection_center" (PVal.point c))
          "resection_center" = some (PVal.point c) :=
  C8_success_output_shapes demoConfig demoResect demoRng demoSample
    demoCallResult demo_call_ok

/-- C9: on a successful call over a well-formed (duplicate-free) sample,
when `delete_keys` is true exactly the five consumed keys
gray_matter_left, gray_matter_right, resectable_left, resectable_right,
noise are removed and every key other than those five and the three
written keys image, label, random_resection is unchanged; when
`delete_keys` is false no key is removed and every key other than the
three written keys is unchanged. -/
theorem C9_delete_keys_frame :
    ∀ (cfg : Config) (resect : ResectFn) (rng : ℕ → ℚ) (s s' : Sample),
      (s.map Prod.fst).Nodup →
      call cfg resect rng s = .ok s' →
      (cfg.delete_keys = true →
        (getVal s' "gray_matter_left" = none
         ∧ getVal s' "gray_matter_right" = none
         ∧ getVal s' "resectable_left" = none
         ∧ getVal s' "resectable_right" = none
         ∧ getVal s' "noise" = none)
        ∧ ∀ k, k ∉ (["gray_matter_left", "gray_matter_right",
                     "resectable_left", "resectable_right",
                     "noise"] : List String) →
               k ∉ (["image", "label", "random_resection"] : List String) →
               getVal s' k = getVal s k)
      ∧ (cfg.delete_keys = false →
        (∀ k, k ∉ (["image", "label", "random_resection"] : List String) →
              getVal s' k = getVal s k)
        ∧ ∀ k, (getVal s k).isSome = true → (getVal s' k).isSome = true) := by
  intro cfg resect rng s s' hnodup h
  obtain ⟨p2, img, lbl, hprep, hrest⟩ := call_ok_elim cfg resect rng s s' h
  constructor
  · intro hd
    rcases hrest with ⟨_, hdel⟩ | ⟨hd', _⟩
    · have hnod3 : (((setVal (setVal (setVal s "random_resection"
          (Val.params p2)) "image" (Val.a4 img)) "label"
          (Val.a4 lbl))).map Prod.fst).Nodup :=
        nodup_setVal _ _ _ (nodup_setVal _ _ _ (nodup_setVal _ _ _ hnodup))
      refine ⟨getVal_deleteFive_deleted _ _ hnod3 hdel, ?_⟩
      intro k hk5 hk3
      simp only [List.mem_cons, List.mem_singleton, not_or] at hk5 hk3
      obtain ⟨n1, n2, n3, n4, n5⟩ := hk5
      obtain ⟨m1, m2, m3⟩ := hk3
      rw [getVal_deleteFive_ne _ _ hdel k n1 n2 n3 n4 n5.1,
          getVal_setVal_ne _ _ _ _ m2, getVal_setVal_ne _ _ _ _ m1,
          getVal_setVal_ne _ _ _ _ m3.1]
    · rw [hd] at hd'
      exact Bool.noConfusion hd'
  · intro hd
    rcases hrest with ⟨hd', _⟩ | ⟨_, hs3⟩
    · rw [hd] at hd'
      exact Bool.noConfusion hd'
    · subst hs3
      constructor
      · intro k hk3
        simp only [List.mem_cons, List.mem_singleton, not_or] at hk3
        obtain ⟨m1, m2, m3⟩ := hk3
        rw [getVal_setVal_ne _ _ _ _ m2, getVal_setVal_ne _ _ _ _ m1,
            getVal_setVal_ne _ _ _ _ m3.1]
      · intro k hk
        exact isSome_getVal_setVal _ _ _ _
          (isSome_getVal_setVal _ _ _ _ (isSome_getVal_setVal _ _ _ _ hk))

/-- C9 witness: in the demonstration call (delete_keys true) the `noise`
key is gone and the unrelated `extra` key is untouched. -/
theorem C9_delete_keys_frame_witness :
    getVal demoCallResult "noise" = none
    ∧ getVal demoCallResult "extra" = getVal demoSample "extra" := by
  have h := C9_delete_keys_frame demoConfig demoResect demoRng demoSample
    demoCallResult (by decide) demo_call_ok
  exact ⟨(h.1 rfl).1.2.2.2.2, (h.1 rfl).2 "extra" (by decide) (by decide)⟩
